import Mathlib

/-
A verification development for the SmarTTS audio pipeline.

The definitions below are a shallow embedding of the code in
src/audio_helpers.py and src/smartts.py:

* `AudioCache` models the `AudioCache` class: a `collections.deque` with
  `maxlen = maxSize`, scanned front (oldest) to back (newest) by `get`,
  appended to by `add` with deque's drop-from-the-left overflow behaviour.
* `create_audio_segment` models the function of the same name.  Its
  observable effects are: whether the TTS provider was invoked, the cache
  after the call, and either a returned wave object (with the playback
  speed actually applied) or an exception escaping the function (the
  `AudioSegment.from_file` decode of an empty temp file raises when
  synthesis terminally failed; that call sits outside the try block).
* `async_audio_generation` models the sequencer loop over discrete time,
  one tick = one 0.1 s poll interval.  Each segment is abstracted by a
  `SegSpec`: the tick at which its synthesis future resolves, its playback
  duration in ticks, and whether `create_audio_segment` raises for it.
  The stop event is a monotone signal `stopAt`: it is set at every tick
  `t` with `stopAt = some s` and `s ≤ t`.  The model follows the source
  loop exactly: top-of-loop stop check, a blocking `future.result()` with
  no polling (time jumps to the resolve tick), `play()` followed by a
  poll loop that checks the stop event once per tick while the audio is
  playing, the tqdm progress updates (`update(total - index)` plus
  `close()` on a mid-playback stop, the post-loop `update(1)` being a
  no-op on a closed bar), and no inter-segment pause.
* `start_stopper` / `runPresses` model the `AudioController` F9 handler:
  a single `threading.Event` created in `__init__` is set, joined on and
  cleared when stopping, and passed as-is to every new reading session.
-/

namespace SmarTTS

/-! ## AudioCache (src/audio_helpers.py lines 23-37) -/

structure AudioCache where
  maxSize : Nat
  cache : List (String × String)
  deriving DecidableEq

/-- `get`: iterate the deque from oldest to newest, first matching text wins. -/
def AudioCache.get (c : AudioCache) (text : String) : Option String :=
  (c.cache.find? (fun p => p.1 == text)).map (fun p => p.2)

/-- `add`: `deque.append`; a deque with `maxlen` drops from the left when the
append would exceed the bound. -/
def AudioCache.add (c : AudioCache) (text audioFilePath : String) : AudioCache :=
  ⟨c.maxSize, (c.cache ++ [(text, audioFilePath)]).drop (c.cache.length + 1 - c.maxSize)⟩

/-- One cache insertion step, for folding over a list of (text, path) pairs. -/
def cacheStep (c : AudioCache) (e : String × String) : AudioCache :=
  c.add e.1 e.2

/-- The module-level `audio_cache = AudioCache(max_size=20)` singleton. -/
def audio_cache : AudioCache := ⟨20, []⟩

/-! ## create_audio_segment (src/audio_helpers.py lines 132-179) -/

inductive TtsProvider
  | openai
  | edge
  deriving DecidableEq

/-- The wave object returned to the sequencer; `speedApplied` is the playback
rate relative to the synthesized audio (1 = original speed). -/
structure WaveObj where
  path : String
  speedApplied : ℚ
  deriving DecidableEq

/-- Either a wave object is returned, or an exception escapes
`create_audio_segment` (the pydub decode of the empty temp file raises when
the provider terminally failed; that decode is outside the try block). -/
inductive SegResult
  | ok (w : WaveObj)
  | raised
  deriving DecidableEq

structure CreateResult where
  providerCalled : Bool
  cacheAfter : AudioCache
  result : SegResult
  deriving DecidableEq

/-- Model of `create_audio_segment`.  `use_hd`, `speaker` and `ttsProvider`
only select the backend voice; backend success is abstracted by
`providerOk`, and success of the export / speed-adjust manipulation inside
the try block by `manipOk` (on a manipulation failure the exception is
caught and the audio is left at its original speed).

The source first evaluates `audio_cache.get(text_chunk)` and, on a hit,
binds `audio_file_path` to the cached path — but the `with tempfile`
block that follows unconditionally rebinds `audio_file_path` to a fresh
temp file, invokes the provider and re-adds the chunk, so the cached
path is dead and the provider is called on every invocation. -/
def create_audio_segment (textChunk : String) (speedFactor : ℚ) (use_hd : Bool)
    (speaker : String) (ttsProvider : TtsProvider) (cache : AudioCache)
    (tempPath : String) (providerOk manipOk : Bool) : CreateResult :=
  ⟨true,
   cache.add textChunk tempPath,
   if providerOk then
     SegResult.ok ⟨tempPath, if manipOk && decide (1 < speedFactor) then speedFactor else 1⟩
   else SegResult.raised⟩

/-! ## The sequencer: async_audio_generation (src/audio_helpers.py lines 182-236) -/

/-- Abstraction of one submitted segment job: the tick at which its future
resolves, its playback duration in ticks, and whether `create_audio_segment`
raises for it (terminal synthesis failure). -/
structure SegSpec where
  resolveTime : Nat
  playDur : Nat
  fails : Bool
  deriving DecidableEq

/-- `stop_event.is_set()` at tick `t`: the event is set from tick `s` on. -/
def isSetAt (stopAt : Option Nat) (t : Nat) : Bool :=
  match stopAt with
  | none => false
  | some s => decide (s ≤ t)

/-- The playback poll loop: checks the stop event at ticks
`start, start+1, ...` while the audio is still playing (`dur` ticks);
returns the offset of the first check that sees the event set, if any. -/
def firstStopTick (stopAt : Option Nat) (start : Nat) : Nat → Option Nat
  | 0 => none
  | d + 1 =>
    if isSetAt stopAt start then some 0
    else (firstStopTick stopAt (start + 1) d).map (· + 1)

/-- One playback record: which segment, when playback started and stopped,
the segment's full duration, and whether it was cut short by the stop event. -/
structure PlayRec where
  idx : Nat
  startT : Nat
  stopT : Nat
  dur : Nat
  stoppedEarly : Bool
  deriving DecidableEq

/-- How the sequencer loop ended: normally (`done`), after observing the stop
event (`cancelled`), or by an exception re-raised from `future.result()`
(`crashed`). -/
inductive SessionOutcome
  | done
  | cancelled
  | crashed
  deriving DecidableEq

structure RunResult where
  played : List PlayRec
  progress : Nat
  outcome : SessionOutcome
  endT : Nat
  deriving DecidableEq

/-- Prepend one playback record to a run result. -/
def consPlay (rec : PlayRec) (r : RunResult) : RunResult :=
  ⟨rec :: r.played, r.progress, r.outcome, r.endT⟩

/-- The `for index in sorted(indexed_futures.keys())` loop.  Arguments after
the segment list: current index, current tick, tqdm progress count, whether
the tqdm bar has been closed (updates on a closed bar are no-ops), and
whether a mid-playback stop has already happened. -/
def go (stopAt : Option Nat) (total : Nat) :
    List SegSpec → Nat → Nat → Nat → Bool → Bool → RunResult
  | [], _, t, prog, _, stopped =>
    ⟨[], prog, if stopped then SessionOutcome.cancelled else SessionOutcome.done, t⟩
  | sg :: rest, idx, t, prog, closed, stopped =>
    if isSetAt stopAt t then
      -- top-of-loop `if stop_event.is_set(): break`
      ⟨[], prog, SessionOutcome.cancelled, t⟩
    else if sg.fails then
      -- `future.result()` re-raises the worker exception; nothing catches it
      ⟨[], prog, SessionOutcome.crashed, max t sg.resolveTime⟩
    else
      -- `future.result()` blocks (without polling) until the future resolves,
      -- then `play()` starts and the poll loop runs once per tick
      match firstStopTick stopAt (max t sg.resolveTime) sg.playDur with
      | some k =>
        -- stop observed mid-playback: `play_obj.stop()`,
        -- `progress_bar.update(total - index)`, `progress_bar.close()`;
        -- the post-loop `update(1)` is a no-op on the closed bar
        consPlay ⟨idx, max t sg.resolveTime, max t sg.resolveTime + k, sg.playDur, true⟩
          (go stopAt total rest (idx + 1) (max t sg.resolveTime + k)
            (if closed then prog else prog + (total - idx)) true true)
      | none =>
        -- playback completes naturally; `progress_bar.update(1)`
        consPlay ⟨idx, max t sg.resolveTime, max t sg.resolveTime + sg.playDur, sg.playDur, false⟩
          (go stopAt total rest (idx + 1) (max t sg.resolveTime + sg.playDur)
            (if closed then prog else prog + 1) closed stopped)

/-- Model of `async_audio_generation`: run the sequencer loop from tick 0
over the tokenized segments. -/
def async_audio_generation (stopAt : Option Nat) (segs : List SegSpec) : RunResult :=
  go stopAt segs.length segs 0 0 0 false false

/-- The playback schedule when the stop event is never set, every future is
already resolved and no segment fails: each segment plays back-to-back. -/
def playAll : List SegSpec → Nat → Nat → List PlayRec
  | [], _, _ => []
  | sg :: rest, idx, t =>
    ⟨idx, t, t + sg.playDur, sg.playDur, false⟩ :: playAll rest (idx + 1) (t + sg.playDur)

/-! ## AudioController session lifecycle (src/smartts.py lines 100-166) -/

/-- A `threading.Event` with an identity: `id` distinguishes distinct Event
objects, `isSet` is its flag. -/
structure EventObj where
  id : Nat
  isSet : Bool
  deriving DecidableEq

def eventSet (e : EventObj) : EventObj := ⟨e.id, true⟩

def eventClear (e : EventObj) : EventObj := ⟨e.id, false⟩

/-- Observable controller events: a reading session starting (recording which
Event object it was handed and whether that event was already set), the
event being set, the reading thread being joined, and the event being
cleared (recording whether a reading session was still alive at that
point). -/
inductive CtrlEvent
  | sessionStart (tokenId : Nat) (setAtStart : Bool)
  | tokenSet (tokenId : Nat)
  | sessionJoin
  | tokenCleared (tokenId : Nat) (sessionAliveAtClear : Bool)
  deriving DecidableEq

/-- `AudioController` state: `self.stop_audio_event` (created once in
`__init__`) and whether `self.reading_thread.is_alive()`. -/
structure AudioController where
  stopAudioEvent : EventObj
  readingAlive : Bool
  deriving DecidableEq

/-- A freshly constructed controller: one new Event (id 0, unset), no
reading thread alive. -/
def AudioController.init : AudioController := ⟨⟨0, false⟩, false⟩

def f9KeyCode : Nat := 269025093

/-- The stop branch of `start_stopper`, step by step:
`self.stop_audio_event.set()`; `self.reading_thread.join()` (after which the
reading thread is no longer alive); `self.stop_audio_event.clear()`. -/
def stopPath (c : AudioController) : AudioController × List CtrlEvent :=
  let e1 := eventSet c.stopAudioEvent
  let c1 : AudioController := ⟨e1, c.readingAlive⟩
  let c2 : AudioController := ⟨c1.stopAudioEvent, false⟩
  let e2 := eventClear c2.stopAudioEvent
  let c3 : AudioController := ⟨e2, c2.readingAlive⟩
  (c3, [CtrlEvent.tokenSet e1.id, CtrlEvent.sessionJoin,
        CtrlEvent.tokenCleared e2.id c2.readingAlive])

/-- Model of `AudioController.start_stopper`: ignore any key other than F9;
on F9 either stop the running session (set, join, clear — reusing the one
Event) or start a new session, handing it `self.stop_audio_event` as-is. -/
def start_stopper (c : AudioController) (keyCode : Nat) : AudioController × List CtrlEvent :=
  if keyCode ≠ f9KeyCode then (c, [])
  else if c.readingAlive then stopPath c
  else (⟨c.stopAudioEvent, true⟩,
        [CtrlEvent.sessionStart c.stopAudioEvent.id c.stopAudioEvent.isSet])

/-- Run a sequence of key presses through the controller, collecting the
observable events in order. -/
def runPresses : AudioController → List Nat → AudioController × List CtrlEvent
  | c, [] => (c, [])
  | c, k :: ks =>
    let step := start_stopper c k
    let rest := runPresses step.1 ks
    (rest.1, step.2 ++ rest.2)

/-- The per-event facts that hold of every controller trace: every session is
handed the single Event with id 0, unset at hand-off, and every clear of
that Event happens when no reading session is alive. -/
def ctrlEventOk : CtrlEvent → Bool
  | CtrlEvent.sessionStart i b => decide (i = 0) && !b
  | CtrlEvent.tokenCleared i alive => decide (i = 0) && !alive
  | _ => true

end SmarTTS

namespace SmarTTS

/-! ## Cache lemmas -/

lemma cacheStep_eq (m : Nat) (l : List (String × String)) (e : String × String) :
    cacheStep ⟨m, l⟩ e = ⟨m, (l ++ [e]).drop (l.length + 1 - m)⟩ := rfl

/-- Folding insertions into a capacity-`m` cache keeps exactly the last `m`
entries (deque `maxlen` semantics). -/
lemma foldl_cacheStep (m : Nat) :
    ∀ (es l : List (String × String)), l.length ≤ m →
      es.foldl cacheStep ⟨m, l⟩ = ⟨m, (l ++ es).drop (l.length + es.length - m)⟩ := by
  intro es
  induction es with
  | nil =>
    intro l hl
    simp [Nat.sub_eq_zero_of_le hl]
  | cons e es ih =>
    intro l hl
    have hstep : (e :: es).foldl cacheStep ⟨m, l⟩ =
        es.foldl cacheStep ⟨m, (l ++ [e]).drop (l.length + 1 - m)⟩ := by
      simp [List.foldl_cons, cacheStep_eq]
    have hlen2 : ((l ++ [e]).drop (l.length + 1 - m)).length ≤ m := by
      rw [List.length_drop, List.length_append, List.length_singleton]
      omega
    rw [hstep, ih _ hlen2]
    have hle : l.length + 1 - m ≤ (l ++ [e]).length := by
      rw [List.length_append, List.length_singleton]
      omega
    have hsplit : (l ++ [e]).drop (l.length + 1 - m) ++ es =
        ((l ++ [e]) ++ es).drop (l.length + 1 - m) :=
      (List.drop_append_of_le_length hle).symm
    rw [hsplit, List.drop_drop]
    have harith : l.length + 1 - m +
        (((l ++ [e]).drop (l.length + 1 - m)).length + es.length - m) =
        l.length + (e :: es).length - m := by
      rw [List.length_drop, List.length_append, List.length_singleton, List.length_cons]
      omega
    rw [List.append_assoc, List.singleton_append, harith]

/-- `find?` on a key absent from the association list. -/
lemma find?_key_eq_none (key : String) (l : List (String × String))
    (h : key ∉ l.map Prod.fst) :
    l.find? (fun p => p.1 == key) = none := by
  induction l with
  | nil => rfl
  | cons x xs ih =>
    simp only [List.map_cons, List.mem_cons, not_or] at h
    have hx : (x.1 == key) = false := by
      simp only [beq_eq_false_iff_ne]
      exact fun hk => h.1 hk.symm
    simp only [List.find?, hx]
    exact ih h.2

/-- `find?` on an association list with pairwise-distinct keys returns each
member entry itself. -/
lemma find?_key_self (l : List (String × String)) (hnd : (l.map Prod.fst).Nodup)
    (e : String × String) (he : e ∈ l) :
    l.find? (fun p => p.1 == e.1) = some e := by
  induction l with
  | nil => cases he
  | cons x xs ih =>
    have hnd' : x.1 ∉ xs.map Prod.fst ∧ (xs.map Prod.fst).Nodup := by
      rw [List.map_cons, List.nodup_cons] at hnd
      exact hnd
    rcases List.mem_cons.mp he with rfl | hmem
    · simp [List.find?]
    · have hne : (x.1 == e.1) = false := by
        simp only [beq_eq_false_iff_ne]
        intro hk
        exact hnd'.1 (hk ▸ List.mem_map_of_mem Prod.fst hmem)
      simp only [List.find?, hne]
      exact ih hnd'.2 hmem

/-- Claim C7: the ephemeral cache never holds more than its configured
capacity of entries, and inserting `capacity + 1` distinct keys into an
empty cache evicts exactly the oldest entry in FIFO (insertion) order:
afterwards the cache holds precisely the last `capacity` entries in
insertion order, `get` misses the evicted oldest key and still hits every
survivor. -/
theorem c7_cache_capacity_fifo (m : Nat) (e0 : String × String)
    (rest : List (String × String)) (hlen : rest.length = m)
    (hnd : ((e0 :: rest).map Prod.fst).Nodup) :
    ((e0 :: rest).foldl cacheStep ⟨m, []⟩).cache = rest ∧
    ((e0 :: rest).foldl cacheStep ⟨m, []⟩).get e0.1 = none ∧
    (∀ e ∈ rest, ((e0 :: rest).foldl cacheStep ⟨m, []⟩).get e.1 = some e.2) ∧
    (∀ es : List (String × String),
      (es.foldl cacheStep ⟨m, []⟩).cache.length ≤ m) := by
  have hfold := foldl_cacheStep m (e0 :: rest) [] (by simp)
  have hcache : ((e0 :: rest).foldl cacheStep ⟨m, []⟩).cache = rest := by
    rw [hfold]
    simp [hlen]
  have hnd' : e0.1 ∉ rest.map Prod.fst ∧ (rest.map Prod.fst).Nodup := by
    rw [List.map_cons, List.nodup_cons] at hnd
    exact hnd
  refine ⟨hcache, ?_, ?_, ?_⟩
  · unfold AudioCache.get
    rw [hcache, find?_key_eq_none _ _ hnd'.1]
    rfl
  · intro e he
    have hndr : (rest.map Prod.fst).Nodup := hnd'.2
    unfold AudioCache.get
    rw [hcache, find?_key_self rest hndr e he]
    rfl
  · intro es
    rw [foldl_cacheStep m es [] (by simp), List.length_drop]
    simp
    omega

/-- Concrete witness for C7: capacity 2, three distinct keys. -/
theorem c7_witness :
    ([(("b"), ("pb")), (("c"), ("pc"))] : List (String × String)).length = 2 ∧
    ((((("a"), ("pa"))) :: [(("b"), ("pb")), (("c"), ("pc"))]).map Prod.fst).Nodup ∧
    (((((("a"), ("pa"))) :: [(("b"), ("pb")), (("c"), ("pc"))]).foldl cacheStep
        ⟨2, []⟩).cache = [(("b"), ("pb")), (("c"), ("pc"))] ∧
      ((((("a"), ("pa"))) :: [(("b"), ("pb")), (("c"), ("pc"))]).foldl cacheStep
        ⟨2, []⟩).get ("a", "pa").1 = none ∧
      (∀ e ∈ [(("b"), ("pb")), (("c"), ("pc"))],
        ((((("a"), ("pa"))) :: [(("b"), ("pb")), (("c"), ("pc"))]).foldl cacheStep
          ⟨2, []⟩).get e.1 = some e.2) ∧
      (∀ es : List (String × String),
        (es.foldl cacheStep ⟨2, []⟩).cache.length ≤ 2)) :=
  ⟨by decide, by decide,
   c7_cache_capacity_fifo 2 (("a"), ("pa")) [(("b"), ("pb")), (("c"), ("pc"))]
     (by decide) (by decide)⟩

end SmarTTS

namespace SmarTTS

/-! ## create_audio_segment theorems -/

/-- Claim C1 (code bug, evaluated): with the cache already holding an entry
for the chunk — `get` returns the cached artifact path — `create_audio_segment`
still invokes the TTS provider and returns a wave object built from the
fresh temp file, not from the cached path.  The cache-hit branch's
assignment is dead: the tempfile block rebinds `audio_file_path`
unconditionally. -/
theorem c1_cache_hit_still_synthesizes :
    (AudioCache.get ⟨20, [(("hello world"), ("cached.wav"))]⟩ ("hello world")
        = some ("cached.wav")) ∧
    (create_audio_segment ("hello world") 1 false ("en-GB-SoniaNeural") TtsProvider.edge
        ⟨20, [(("hello world"), ("cached.wav"))]⟩ ("tmp1.mp3") true true).providerCalled
      = true ∧
    (create_audio_segment ("hello world") 1 false ("en-GB-SoniaNeural") TtsProvider.edge
        ⟨20, [(("hello world"), ("cached.wav"))]⟩ ("tmp1.mp3") true true).result
      = SegResult.ok ⟨("tmp1.mp3"), 1⟩ ∧
    ("tmp1.mp3" : String) ≠ ("cached.wav") := by
  refine ⟨rfl, rfl, ?_, by decide⟩
  simp [create_audio_segment]

/-- Claim C10: the speed adjustment runs only when `speed_factor > 1`
(`if speed_factor > 1: adjust_audio_speed(...)`); for `0 < speed_factor ≤ 1`
the synthesized audio is returned at its original speed, and for
`speed_factor > 1` (with the manipulation succeeding) the stretch is
applied. -/
theorem c10_speed_adjust_only_above_one (textChunk : String) (s : ℚ) (use_hd : Bool)
    (speaker : String) (prov : TtsProvider) (cache : AudioCache) (tempPath : String)
    (manipOk : Bool) (h0 : 0 < s) :
    (s ≤ 1 →
      (create_audio_segment textChunk s use_hd speaker prov cache tempPath true
          manipOk).result = SegResult.ok ⟨tempPath, 1⟩) ∧
    (1 < s → manipOk = true →
      (create_audio_segment textChunk s use_hd speaker prov cache tempPath true
          manipOk).result = SegResult.ok ⟨tempPath, s⟩) := by
  constructor
  · intro hs
    have hd : decide (1 < s) = false := decide_eq_false (not_lt.mpr hs)
    simp [create_audio_segment, hd]
  · intro hs hm
    have hd : decide (1 < s) = true := decide_eq_true hs
    simp [create_audio_segment, hd, hm]

/-- Concrete witness for C10 at `speed_factor = 1/2`. -/
theorem c10_witness :
    (0 : ℚ) < 1 / 2 ∧ (1 / 2 : ℚ) ≤ 1 ∧
    (create_audio_segment ("hi") (1 / 2) false ("en-GB-SoniaNeural") TtsProvider.edge
        ⟨20, []⟩ ("t.mp3") true true).result = SegResult.ok ⟨("t.mp3"), 1⟩ :=
  ⟨by norm_num, by norm_num,
   (c10_speed_adjust_only_above_one ("hi") (1 / 2) false ("en-GB-SoniaNeural")
      TtsProvider.edge ⟨20, []⟩ ("t.mp3") true (by norm_num)).1 (by norm_num)⟩

end SmarTTS

namespace SmarTTS

/-! ## Sequencer lemmas -/

lemma firstStopTick_none_eq : ∀ (dur start : Nat), firstStopTick none start dur = none := by
  intro dur
  induction dur with
  | zero => intro start; rfl
  | succ d ih => intro start; simp [firstStopTick, isSetAt, ih]

/-- If the stop event becomes set strictly inside the poll window, the poll
loop observes it exactly at the tick it is set. -/
lemma firstStopTick_eq_sub : ∀ (dur start s : Nat), start ≤ s → s < start + dur →
    firstStopTick (some s) start dur = some (s - start) := by
  intro dur
  induction dur with
  | zero => intro start s h1 h2; exact absurd h2 (by omega)
  | succ d ih =>
    intro start s h1 h2
    by_cases he : s ≤ start
    · have hss : s = start := le_antisymm he h1
      subst hss
      simp [firstStopTick, isSetAt]
    · have hf : isSetAt (some s) start = false := by
        simp [isSetAt]
        omega
      rw [firstStopTick, hf]
      simp only [Bool.false_eq_true, if_false]
      rw [ih (start + 1) s (by omega) (by omega)]
      simp only [Option.map_some']
      congr 1
      omega

/-- If the stop event is already set when playback starts, the very first
poll stops it (offset 0). -/
lemma firstStopTick_isSet_some (stopAt : Option Nat) (start d : Nat)
    (h : isSetAt stopAt start = true) :
    firstStopTick stopAt start (d + 1) = some 0 := by
  simp [firstStopTick, h]

lemma go_nil (stopAt : Option Nat) (total idx t prog : Nat) (closed stopped : Bool) :
    go stopAt total [] idx t prog closed stopped =
      ⟨[], prog, if stopped then SessionOutcome.cancelled else SessionOutcome.done, t⟩ := rfl

/-- Top-of-loop stop check: a set event breaks immediately, playing nothing. -/
lemma go_cons_isSet (stopAt : Option Nat) (total : Nat) (sg : SegSpec) (rest : List SegSpec)
    (idx t prog : Nat) (closed stopped : Bool) (h : isSetAt stopAt t = true) :
    go stopAt total (sg :: rest) idx t prog closed stopped =
      ⟨[], prog, SessionOutcome.cancelled, t⟩ := by
  simp [go, h]

/-- After a mid-playback stop the loop terminates as cancelled at its next
check, whatever remains. -/
lemma go_stopped_isSet (stopAt : Option Nat) (total : Nat) (segs : List SegSpec)
    (idx t prog : Nat) (closed : Bool) (h : isSetAt stopAt t = true) :
    go stopAt total segs idx t prog closed true =
      ⟨[], prog, SessionOutcome.cancelled, t⟩ := by
  cases segs with
  | nil => simp [go]
  | cons sg rest => exact go_cons_isSet _ _ _ _ _ _ _ _ _ h

/-- Unfolding of the loop body for a segment that is reached (no stop at the
loop top) and whose synthesis succeeded. -/
lemma go_cons_play (stopAt : Option Nat) (total : Nat) (sg : SegSpec) (rest : List SegSpec)
    (idx t prog : Nat) (closed stopped : Bool)
    (hset : isSetAt stopAt t = false) (hfail : sg.fails = false) :
    go stopAt total (sg :: rest) idx t prog closed stopped =
      match firstStopTick stopAt (max t sg.resolveTime) sg.playDur with
      | some k =>
        consPlay ⟨idx, max t sg.resolveTime, max t sg.resolveTime + k, sg.playDur, true⟩
          (go stopAt total rest (idx + 1) (max t sg.resolveTime + k)
            (if closed then prog else prog + (total - idx)) true true)
      | none =>
        consPlay ⟨idx, max t sg.resolveTime, max t sg.resolveTime + sg.playDur, sg.playDur, false⟩
          (go stopAt total rest (idx + 1) (max t sg.resolveTime + sg.playDur)
            (if closed then prog else prog + 1) closed stopped) := by
  simp [go, hset, hfail]

/-- Every record produced from loop position `idx` onwards carries an index
at least `idx`. -/
lemma go_played_idx_ge (stopAt : Option Nat) (total : Nat) :
    ∀ (segs : List SegSpec) (idx t prog : Nat) (closed stopped : Bool),
      ∀ p ∈ (go stopAt total segs idx t prog closed stopped).played, idx ≤ p.idx := by
  intro segs
  induction segs with
  | nil =>
    intro idx t prog closed stopped p hp
    simp [go_nil] at hp
  | cons sg rest ih =>
    intro idx t prog closed stopped p hp
    cases hset : isSetAt stopAt t with
    | true =>
      rw [go_cons_isSet _ _ _ _ _ _ _ _ _ hset] at hp
      simp at hp
    | false =>
      cases hfail : sg.fails with
      | true => simp [go, hset, hfail] at hp
      | false =>
        rw [go_cons_play _ _ _ _ _ _ _ _ _ hset hfail] at hp
        rcases hft : firstStopTick stopAt (max t sg.resolveTime) sg.playDur with _ | k
        · simp only [hft, consPlay, List.mem_cons] at hp
          rcases hp with rfl | hmem
          · exact le_refl _
          · have := ih (idx + 1) (max t sg.resolveTime + sg.playDur)
              (if closed then prog else prog + 1) closed stopped p hmem
            omega
        · simp only [hft, consPlay, List.mem_cons] at hp
          rcases hp with rfl | hmem
          · exact le_refl _
          · have := ih (idx + 1) (max t sg.resolveTime + k)
              (if closed then prog else prog + (total - idx)) true true p hmem
            omega

/-- The playback records are produced in strictly increasing index order. -/
lemma go_played_pairwise (stopAt : Option Nat) (total : Nat) :
    ∀ (segs : List SegSpec) (idx t prog : Nat) (closed stopped : Bool),
      ((go stopAt total segs idx t prog closed stopped).played).Pairwise
        (fun a b => a.idx < b.idx) := by
  intro segs
  induction segs with
  | nil =>
    intro idx t prog closed stopped
    simp [go_nil]
  | cons sg rest ih =>
    intro idx t prog closed stopped
    cases hset : isSetAt stopAt t with
    | true =>
      rw [go_cons_isSet _ _ _ _ _ _ _ _ _ hset]
      simp
    | false =>
      cases hfail : sg.fails with
      | true => simp [go, hset, hfail]
      | false =>
        rw [go_cons_play _ _ _ _ _ _ _ _ _ hset hfail]
        rcases hft : firstStopTick stopAt (max t sg.resolveTime) sg.playDur with _ | k
        · simp only [hft, consPlay]
          refine List.pairwise_cons.mpr ⟨?_, ih _ _ _ _ _⟩
          intro b hb
          have := go_played_idx_ge stopAt total rest (idx + 1)
            (max t sg.resolveTime + sg.playDur) (if closed then prog else prog + 1)
            closed stopped b hb
          simp only []
          omega
        · simp only [hft, consPlay]
          refine List.pairwise_cons.mpr ⟨?_, ih _ _ _ _ _⟩
          intro b hb
          have := go_played_idx_ge stopAt total rest (idx + 1)
            (max t sg.resolveTime + k) (if closed then prog else prog + (total - idx))
            true true b hb
          simp only []
          omega

/-- Claim C3: for every segment sequence and every assignment of future
resolve times (hence every completion order), playback follows strictly
ascending segment-index order — the sequence of play events has pairwise
strictly increasing indices, so a later-indexed segment is never played
before an earlier-indexed one. -/
theorem c3_playback_in_input_order (stopAt : Option Nat) (segs : List SegSpec) :
    ((async_audio_generation stopAt segs).played).Pairwise
      (fun a b => a.idx < b.idx) :=
  go_played_pairwise stopAt segs.length segs 0 0 0 false false

end SmarTTS

namespace SmarTTS

/-- Claim C2 (code bug, evaluated): three segments, the middle one failing
terminally.  Segment 0 plays, then `future.result()` for segment 1
re-raises the decode exception: the session crashes, segment 2 never
plays and `Done` is never reached — the failure is not segment-local. -/
theorem c2_crash_on_failed_segment :
    async_audio_generation none [⟨0, 1, false⟩, ⟨0, 1, true⟩, ⟨0, 1, false⟩] =
      ⟨[⟨0, 0, 1, 1, false⟩], 1, SessionOutcome.crashed, 1⟩ := by decide

/-- Claim C5 counterexample: the stop event is set at tick 1 while the
sequencer is blocked on segment 0's future, which resolves at tick 50.
Were the token polled at a bounded interval (one tick) during the wait,
the cancellation would be observed by tick 2; instead the sequencer stays
blocked, segment 0 still starts playback at tick 50, and the stop is first
observed there — 49 ticks after the token was set. -/
theorem c5_counterexample :
    (async_audio_generation (some 1) [⟨50, 4, false⟩]).played = [⟨0, 50, 50, 4, true⟩] ∧
    (async_audio_generation (some 1) [⟨50, 4, false⟩]).outcome = SessionOutcome.cancelled ∧
    ¬ (50 ≤ 1 + 1) := by decide

/-- Claim C5 amended: while blocked on `future.result()` the sequencer does
not poll the stop event at all; a cancellation set during the wait
(after the loop-top check, before the future resolves) is first observed
by the initial playback poll after the future resolves — the segment still
starts playback at the resolve tick and is stopped at that same tick, and
only then does the session end cancelled. -/
theorem c5_amended_no_poll_during_wait (s : Nat) (sg : SegSpec) (rest : List SegSpec)
    (h0 : 0 < s) (hw : s < sg.resolveTime) (hf : sg.fails = false) (hd : 0 < sg.playDur) :
    (async_audio_generation (some s) (sg :: rest)).played =
      [⟨0, sg.resolveTime, sg.resolveTime, sg.playDur, true⟩] ∧
    (async_audio_generation (some s) (sg :: rest)).outcome = SessionOutcome.cancelled := by
  have hset : isSetAt (some s) 0 = false := by
    simp [isSetAt]
    omega
  have hmax : max 0 sg.resolveTime = sg.resolveTime := Nat.max_eq_right (Nat.zero_le _)
  have hset2 : isSetAt (some s) (max 0 sg.resolveTime) = true := by
    simp [isSetAt, hmax]
    omega
  obtain ⟨d, hdur⟩ : ∃ d, sg.playDur = d + 1 := ⟨sg.playDur - 1, by omega⟩
  have hft : firstStopTick (some s) (max 0 sg.resolveTime) sg.playDur = some 0 := by
    rw [hdur]
    exact firstStopTick_isSet_some _ _ _ hset2
  unfold async_audio_generation
  rw [go_cons_play _ _ _ _ _ _ _ _ _ hset hf]
  simp only [hft]
  rw [go_stopped_isSet _ _ _ _ _ _ _ (by simpa using hset2)]
  simp [consPlay, hmax]

/-- Concrete witness for the amended C5. -/
theorem c5_amended_witness :
    0 < 1 ∧ 1 < 5 ∧ (⟨5, 3, false⟩ : SegSpec).fails = false ∧ 0 < 3 ∧
    ((async_audio_generation (some 1) [⟨5, 3, false⟩]).played = [⟨0, 5, 5, 3, true⟩] ∧
      (async_audio_generation (some 1) [⟨5, 3, false⟩]).outcome
        = SessionOutcome.cancelled) :=
  ⟨by decide, by decide, by decide, by decide,
   c5_amended_no_poll_during_wait 1 ⟨5, 3, false⟩ [] (by decide) (by decide)
     (by decide) (by decide)⟩

/-- Claim C6 counterexample: two back-to-back segments, futures already
resolved.  Segment 1's playback starts at tick 2 — the very tick segment
0's playback ended — so no inter-segment pause is awaited (for the spec's
configured pause of 0.3 s, i.e. 3 ticks, playback of segment 1 would have
to start no earlier than tick 5).  `async_audio_generation` has no pause
configuration at all. -/
theorem c6_counterexample :
    (async_audio_generation none [⟨0, 2, false⟩, ⟨0, 2, false⟩]).played =
      [⟨0, 0, 2, 2, false⟩, ⟨1, 2, 4, 2, false⟩] ∧
    ¬ ((2 : Nat) + 3 ≤ 2) := by decide

/-- The full-playback schedule really is back-to-back: consecutive records
abut exactly. -/
lemma playAll_chain : ∀ (segs : List SegSpec) (idx t : Nat),
    (playAll segs idx t).Chain' (fun p q => q.startT = p.stopT) := by
  intro segs
  induction segs with
  | nil => intro idx t; simp [playAll]
  | cons sg rest ih =>
    intro idx t
    rw [playAll]
    refine List.chain'_cons'.mpr ⟨?_, ih _ _⟩
    intro q hq
    cases rest with
    | nil => simp [playAll] at hq
    | cons sg2 r2 =>
      rw [playAll] at hq
      simp only [List.head?_cons, Option.mem_def, Option.some_inj] at hq
      subst hq
      rfl

lemma playAll_length : ∀ (segs : List SegSpec) (idx t : Nat),
    (playAll segs idx t).length = segs.length := by
  intro segs
  induction segs with
  | nil => intro idx t; rfl
  | cons sg rest ih => intro idx t; simp [playAll, ih]

/-- With the stop event never set, every future already resolved and no
failures, the sequencer produces exactly the back-to-back schedule. -/
lemma go_none_played (total : Nat) :
    ∀ (segs : List SegSpec) (idx t prog : Nat) (closed stopped : Bool),
      (∀ sg ∈ segs, sg.resolveTime = 0 ∧ sg.fails = false) →
      (go none total segs idx t prog closed stopped).played = playAll segs idx t := by
  intro segs
  induction segs with
  | nil => intro idx t prog closed stopped h; simp [go_nil, playAll]
  | cons sg rest ih =>
    intro idx t prog closed stopped h
    have hsg := h sg (List.mem_cons_self sg rest)
    have hrest : ∀ x ∈ rest, x.resolveTime = 0 ∧ x.fails = false :=
      fun x hx => h x (List.mem_cons_of_mem sg hx)
    rw [go_cons_play none total sg rest idx t prog closed stopped rfl hsg.2]
    rw [firstStopTick_none_eq]
    simp only [consPlay, playAll, hsg.1, Nat.max_zero]
    rw [ih _ _ _ _ _ hrest]

/-- Claim C6 amended: the sequencer inserts no inter-segment pause — with
all futures resolved and no failures, each segment's playback starts at
exactly the tick the previous segment's playback ended, and every segment
plays.  The only pre-play cancellation checkpoint is the loop-top stop
check: a token set before the loop reaches a segment prevents it from
playing (here: set from tick 0, nothing plays). -/
theorem c6_amended_no_pause (segs : List SegSpec)
    (h : ∀ sg ∈ segs, sg.resolveTime = 0 ∧ sg.fails = false) :
    ((async_audio_generation none segs).played).Chain' (fun p q => q.startT = p.stopT) ∧
    (async_audio_generation none segs).played.length = segs.length ∧
    (async_audio_generation (some 0) segs).played = [] := by
  refine ⟨?_, ?_, ?_⟩
  · unfold async_audio_generation
    rw [go_none_played _ _ _ _ _ _ _ h]
    exact playAll_chain _ _ _
  · unfold async_audio_generation
    rw [go_none_played _ _ _ _ _ _ _ h, playAll_length]
  · cases segs with
    | nil => rfl
    | cons sg rest =>
      unfold async_audio_generation
      rw [go_cons_isSet _ _ _ _ _ _ _ _ _ (by simp [isSetAt])]

/-- Concrete witness for the amended C6. -/
theorem c6_amended_witness :
    (∀ sg ∈ ([⟨0, 2, false⟩, ⟨0, 3, false⟩] : List SegSpec),
      sg.resolveTime = 0 ∧ sg.fails = false) ∧
    (((async_audio_generation none [⟨0, 2, false⟩, ⟨0, 3, false⟩]).played).Chain'
        (fun p q => q.startT = p.stopT) ∧
      (async_audio_generation none [⟨0, 2, false⟩, ⟨0, 3, false⟩]).played.length = 2 ∧
      (async_audio_generation (some 0) [⟨0, 2, false⟩, ⟨0, 3, false⟩]).played = []) :=
  ⟨by decide, c6_amended_no_pause [⟨0, 2, false⟩, ⟨0, 3, false⟩] (by decide)⟩

end SmarTTS

namespace SmarTTS

/-- Claim C9 counterexample: three 2-tick segments, stop event set at tick 2.
Segment 0 plays fully (progress 1); the cancellation is observed at the
loop-top check before segment 1, so the session ends cancelled with
progress 1 — the true partial position — not the total 3.  Progress is
forced to the total only when the stop is observed mid-playback. -/
theorem c9_counterexample :
    (async_audio_generation (some 2) [⟨0, 2, false⟩, ⟨0, 2, false⟩, ⟨0, 2, false⟩]).outcome
        = SessionOutcome.cancelled ∧
    (async_audio_generation (some 2) [⟨0, 2, false⟩, ⟨0, 2, false⟩, ⟨0, 2, false⟩]).progress
        = 1 ∧
    ¬ ((1 : Nat) = 3) := by decide

/-- Once the tqdm bar is closed, no later update changes the count. -/
lemma go_progress_closed (stopAt : Option Nat) (total : Nat) :
    ∀ (segs : List SegSpec) (idx t prog : Nat) (stopped : Bool),
      (go stopAt total segs idx t prog true stopped).progress = prog := by
  intro segs
  induction segs with
  | nil => intro idx t prog stopped; simp [go_nil]
  | cons sg rest ih =>
    intro idx t prog stopped
    cases hset : isSetAt stopAt t with
    | true => rw [go_cons_isSet _ _ _ _ _ _ _ _ _ hset]
    | false =>
      cases hfail : sg.fails with
      | true => simp [go, hset, hfail]
      | false =>
        rw [go_cons_play _ _ _ _ _ _ _ _ _ hset hfail]
        rcases hft : firstStopTick stopAt (max t sg.resolveTime) sg.playDur with _ | k
        · simp only [hft, consPlay, if_true]
          exact ih _ _ _ _
        · simp only [hft, consPlay, if_true]
          exact ih _ _ _ _

/-- If some segment is stopped mid-playback, the progress count ends at
`prog + (total - idx)`: the `update(total - index)` fires on the open bar
and every later update is a no-op on the closed bar. -/
lemma go_progress_early (stopAt : Option Nat) (total : Nat) :
    ∀ (segs : List SegSpec) (idx t prog : Nat) (stopped : Bool),
      idx + segs.length = total →
      (∃ p ∈ (go stopAt total segs idx t prog false stopped).played,
        p.stoppedEarly = true) →
      (go stopAt total segs idx t prog false stopped).progress = prog + (total - idx) := by
  intro segs
  induction segs with
  | nil =>
    intro idx t prog stopped hN hex
    simp [go_nil] at hex
  | cons sg rest ih =>
    intro idx t prog stopped hN hex
    cases hset : isSetAt stopAt t with
    | true =>
      rw [go_cons_isSet _ _ _ _ _ _ _ _ _ hset] at hex
      simp at hex
    | false =>
      cases hfail : sg.fails with
      | true =>
        simp [go, hset, hfail] at hex
      | false =>
        rw [go_cons_play _ _ _ _ _ _ _ _ _ hset hfail] at hex ⊢
        rcases hft : firstStopTick stopAt (max t sg.resolveTime) sg.playDur with _ | k
        · simp only [hft, consPlay, List.mem_cons, if_false, Bool.false_eq_true] at hex ⊢
          obtain ⟨p, hp, hpe⟩ := hex
          rcases hp with rfl | hmem
          · simp at hpe
          · have hN' : (idx + 1) + rest.length = total := by
              rw [List.length_cons] at hN
              omega
            rw [ih (idx + 1) _ (prog + 1) stopped hN' ⟨p, hmem, hpe⟩]
            have hidx : idx < total := by omega
            omega
        · simp only [hft, consPlay, if_false, Bool.false_eq_true]
          exact go_progress_closed stopAt total rest _ _ _ _

/-- Claim C9 amended: when the cancellation is observed mid-playback of some
segment, the sequencer reports progress as complete — the final progress
count equals the total segment count, not the true partial position.
(When cancellation is instead observed at the loop-top check, progress
stays at the number of fully played segments; see the counterexample.) -/
theorem c9_amended_progress_complete_on_midplay_cancel (stopAt : Option Nat)
    (segs : List SegSpec)
    (h : ∃ p ∈ (async_audio_generation stopAt segs).played, p.stoppedEarly = true) :
    (async_audio_generation stopAt segs).progress = segs.length := by
  have := go_progress_early stopAt segs.length segs 0 0 0 false (by simp) h
  simpa using this

/-- Concrete witness for the amended C9: one segment, stopped mid-playback;
progress ends at the total (1). -/
theorem c9_amended_witness :
    (∃ p ∈ (async_audio_generation (some 1) [⟨0, 5, false⟩]).played,
      p.stoppedEarly = true) ∧
    (async_audio_generation (some 1) [⟨0, 5, false⟩]).progress = 1 :=
  ⟨⟨⟨0, 0, 1, 5, true⟩, by decide, rfl⟩,
   c9_amended_progress_complete_on_midplay_cancel (some 1) [⟨0, 5, false⟩]
     ⟨⟨0, 0, 1, 5, true⟩, by decide, rfl⟩⟩

end SmarTTS

namespace SmarTTS

/-- The poll offset returned by the poll loop points at a tick where the stop
event is set. -/
lemma firstStopTick_mem_isSet : ∀ (dur start k : Nat) (stopAt : Option Nat),
    firstStopTick stopAt start dur = some k → isSetAt stopAt (start + k) = true := by
  intro dur
  induction dur with
  | zero => intro start k stopAt h; exact Option.noConfusion h
  | succ d ih =>
    intro start k stopAt h
    rw [firstStopTick] at h
    cases hset : isSetAt stopAt start with
    | true =>
      rw [hset] at h
      simp only [if_true] at h
      obtain rfl : (0 : Nat) = k := Option.some_inj.mp h
      simpa using hset
    | false =>
      rw [hset] at h
      simp only [Bool.false_eq_true, if_false] at h
      obtain ⟨k2, hk2, rfl⟩ := Option.map_eq_some'.mp h
      have := ih (start + 1) k2 stopAt hk2
      rw [show start + (k2 + 1) = start + 1 + k2 from by omega]
      exact this

/-- Core cancellation lemma: if the stop event becomes set during some
segment's playback window, that segment's playback is cut at exactly the
set tick, it is the last segment played, and the run ends cancelled. -/
lemma go_cancel_mid (s : Nat) (total : Nat) :
    ∀ (segs : List SegSpec) (idx t prog : Nat) (closed stopped : Bool) (p : PlayRec),
      p ∈ (go (some s) total segs idx t prog closed stopped).played →
      p.startT ≤ s → s < p.startT + p.dur →
      p.stoppedEarly = true ∧ p.stopT = s ∧
      (∀ q ∈ (go (some s) total segs idx t prog closed stopped).played, q.idx ≤ p.idx) ∧
      (go (some s) total segs idx t prog closed stopped).outcome
        = SessionOutcome.cancelled := by
  intro segs
  induction segs with
  | nil =>
    intro idx t prog closed stopped p hp h1 h2
    simp [go_nil] at hp
  | cons sg rest ih =>
    intro idx t prog closed stopped p hp h1 h2
    cases hset : isSetAt (some s) t with
    | true =>
      rw [go_cons_isSet _ _ _ _ _ _ _ _ _ hset] at hp
      simp at hp
    | false =>
      cases hfail : sg.fails with
      | true => simp [go, hset, hfail] at hp
      | false =>
        rw [go_cons_play _ _ _ _ _ _ _ _ _ hset hfail] at hp ⊢
        rcases hft : firstStopTick (some s) (max t sg.resolveTime) sg.playDur with _ | k
        · -- the head segment played in full
          simp only [hft, consPlay, List.mem_cons] at hp ⊢
          rcases hp with rfl | hmem
          · exfalso
            have hcontra := firstStopTick_eq_sub sg.playDur (max t sg.resolveTime) s
              (by simpa using h1) (by simpa using h2)
            rw [hft] at hcontra
            exact Option.noConfusion hcontra
          · obtain ⟨he, hs, hall, hout⟩ := ih (idx + 1) (max t sg.resolveTime + sg.playDur)
              (if closed then prog else prog + 1) closed stopped p hmem h1 h2
            refine ⟨he, hs, ?_, hout⟩
            intro q hq
            rcases hq with rfl | hqm
            · have := go_played_idx_ge (some s) total rest (idx + 1)
                (max t sg.resolveTime + sg.playDur) (if closed then prog else prog + 1)
                closed stopped p hmem
              simp only []
              omega
            · exact hall q hqm
        · -- the head segment was stopped mid-playback; the loop then exits
          have hkset : isSetAt (some s) (max t sg.resolveTime + k) = true :=
            firstStopTick_mem_isSet sg.playDur (max t sg.resolveTime) k (some s) hft
          simp only [hft, consPlay] at hp ⊢
          rw [go_stopped_isSet _ _ _ _ _ _ _ hkset] at hp ⊢
          simp only [List.mem_cons, List.not_mem_nil, or_false] at hp
          subst hp
          have hrec : k = s - max t sg.resolveTime := by
            have := firstStopTick_eq_sub sg.playDur (max t sg.resolveTime) s
              (by simpa using h1) (by simpa using h2)
            rw [hft] at this
            exact Option.some_inj.mp this
          have h1' : max t sg.resolveTime ≤ s := by simpa using h1
          refine ⟨rfl, ?_, ?_, rfl⟩
          · show max t sg.resolveTime + k = s
            omega
          · intro q hq
            simp only [List.mem_cons, List.not_mem_nil, or_false] at hq
            subst hq
            exact le_refl _

/-- Claim C4: if the cancellation token becomes set during the playback
window of a segment that plays (its record `p` satisfies
`p.startT ≤ s < p.startT + p.dur`), then that segment's audible output is
stopped at exactly tick `s` — within one poll interval of the token being
set — no later-indexed segment is ever played, and the session terminates
cancelled. -/
theorem c4_cancel_during_playback (s : Nat) (segs : List SegSpec) (p : PlayRec)
    (hp : p ∈ (async_audio_generation (some s) segs).played)
    (h1 : p.startT ≤ s) (h2 : s < p.startT + p.dur) :
    p.stoppedEarly = true ∧ p.stopT = s ∧
    (∀ q ∈ (async_audio_generation (some s) segs).played, q.idx ≤ p.idx) ∧
    (async_audio_generation (some s) segs).outcome = SessionOutcome.cancelled :=
  go_cancel_mid s segs.length segs 0 0 0 false false p hp h1 h2

/-- Concrete witness for C4: token set at tick 2 during segment 0's 5-tick
playback; segment 0 is stopped at tick 2, segment 1 never plays, the
session ends cancelled. -/
theorem c4_witness :
    ((⟨0, 0, 2, 5, true⟩ : PlayRec)
        ∈ (async_audio_generation (some 2) [⟨0, 5, false⟩, ⟨0, 3, false⟩]).played) ∧
    (⟨0, 0, 2, 5, true⟩ : PlayRec).startT ≤ 2 ∧
    2 < (⟨0, 0, 2, 5, true⟩ : PlayRec).startT + (⟨0, 0, 2, 5, true⟩ : PlayRec).dur ∧
    ((⟨0, 0, 2, 5, true⟩ : PlayRec).stoppedEarly = true ∧
      (⟨0, 0, 2, 5, true⟩ : PlayRec).stopT = 2 ∧
      (∀ q ∈ (async_audio_generation (some 2) [⟨0, 5, false⟩, ⟨0, 3, false⟩]).played,
        q.idx ≤ (⟨0, 0, 2, 5, true⟩ : PlayRec).idx) ∧
      (async_audio_generation (some 2) [⟨0, 5, false⟩, ⟨0, 3, false⟩]).outcome
        = SessionOutcome.cancelled) :=
  ⟨by decide, by decide, by decide,
   c4_cancel_during_playback 2 [⟨0, 5, false⟩, ⟨0, 3, false⟩] ⟨0, 0, 2, 5, true⟩
     (by decide) (by decide) (by decide)⟩

end SmarTTS

namespace SmarTTS

/-- Claim C8 counterexample: three F9 presses (start, stop, start) on a fresh
controller.  Both reading sessions are handed the same Event object
(token id 0), and a `tokenCleared` — a reset of that token — occurs between
the two sessions: the token is reused across sessions, not fresh per
session. -/
theorem c8_counterexample :
    ((runPresses AudioController.init [f9KeyCode, f9KeyCode, f9KeyCode]).2.filterMap
        (fun e => match e with
          | CtrlEvent.sessionStart i _ => some i
          | _ => none)) = [0, 0] ∧
    CtrlEvent.tokenCleared 0 false ∈
      (runPresses AudioController.init [f9KeyCode, f9KeyCode, f9KeyCode]).2 := by
  decide

/-- Invariant of the controller: between presses the single Event (id 0) is
unset, and every trace event satisfies `ctrlEventOk`. -/
lemma runPresses_ok : ∀ (ks : List Nat) (c : AudioController),
    c.stopAudioEvent = ⟨0, false⟩ →
    (runPresses c ks).1.stopAudioEvent = ⟨0, false⟩ ∧
      ∀ e ∈ (runPresses c ks).2, ctrlEventOk e = true := by
  intro ks
  induction ks with
  | nil =>
    intro c hc
    exact ⟨hc, by simp [runPresses]⟩
  | cons k ks ih =>
    intro c hc
    obtain ⟨ev, alive⟩ := c
    simp only at hc
    subst hc
    by_cases hk : k ≠ f9KeyCode
    · have hstep : start_stopper ⟨⟨0, false⟩, alive⟩ k = (⟨⟨0, false⟩, alive⟩, []) := by
        simp [start_stopper, hk]
      simp only [runPresses, hstep]
      obtain ⟨ih1, ih2⟩ := ih ⟨⟨0, false⟩, alive⟩ rfl
      exact ⟨ih1, by simpa using ih2⟩
    · push_neg at hk
      subst hk
      cases alive with
      | true =>
        have hstep : start_stopper ⟨⟨0, false⟩, true⟩ f9KeyCode =
            (⟨⟨0, false⟩, false⟩,
             [CtrlEvent.tokenSet 0, CtrlEvent.sessionJoin,
              CtrlEvent.tokenCleared 0 false]) := by decide
        simp only [runPresses, hstep]
        obtain ⟨ih1, ih2⟩ := ih ⟨⟨0, false⟩, false⟩ rfl
        refine ⟨ih1, ?_⟩
        intro e he
        rcases List.mem_append.mp he with hL | hR
        · rcases hL with _ | ⟨_, _ | ⟨_, _ | ⟨_, h⟩⟩⟩ <;> first | rfl | cases h
        · exact ih2 e hR
      | false =>
        have hstep : start_stopper ⟨⟨0, false⟩, false⟩ f9KeyCode =
            (⟨⟨0, false⟩, true⟩, [CtrlEvent.sessionStart 0 false]) := by decide
        simp only [runPresses, hstep]
        obtain ⟨ih1, ih2⟩ := ih ⟨⟨0, false⟩, true⟩ rfl
        refine ⟨ih1, ?_⟩
        intro e he
        rcases List.mem_append.mp he with hL | hR
        · rcases hL with _ | ⟨_, h⟩
          · rfl
          · cases h
        · exact ih2 e hR

/-- Claim C8 amended: the controller owns a single cancellation Event,
created once at construction, and reuses it for every reading session:
every session start hands over the Event with id 0, always unset at
hand-off (the stop branch runs set → join → clear, so the clear happens
only after the stopped session's thread has been joined — never while a
session is alive — and within a session the token, once set, stays set
until the session has ended). -/
theorem c8_amended_single_token_cleared_between_sessions (ks : List Nat) :
    ∀ e ∈ (runPresses AudioController.init ks).2, ctrlEventOk e = true :=
  (runPresses_ok ks AudioController.init rfl).2

/-- Concrete witness for the amended C8. -/
theorem c8_amended_witness :
    CtrlEvent.sessionStart 0 false ∈ (runPresses AudioController.init [f9KeyCode]).2 ∧
    ctrlEventOk (CtrlEvent.sessionStart 0 false) = true :=
  ⟨by decide,
   c8_amended_single_token_cleared_between_sessions [f9KeyCode]
     (CtrlEvent.sessionStart 0 false) (by decide)⟩

end SmarTTS
